import Mathlib

/-!
Verification development for the `Projekt3` election scraper (`main.py`).

The program crawls a two-level site of election results, extracts per-district
statistics and per-party vote counts out of HTML tables, merges them into one
flat table with a globally ordered party-column schema, and writes a CSV.

We shallowly embed the pure core of the program: strings are Lean `String`s,
HTML documents are lists of tables / rows / cells carrying the attributes the
code inspects (class list, `headers` attribute, text, anchor), Python dicts
are association lists with insertion-order update semantics, and Python's
stable `list.sort(key=...)` is modelled by a stable insertion sort by key.
Network fetching is an oracle argument `String → ResultsPage`; the number of
fetches performed is tracked where a claim is about it.  Python runtime
errors raised by the code (attribute access on a missing anchor) are modelled
by an explicit error value, since they abort the run.
-/

namespace Projekt3

/-! ## Python string primitives -/

/-- Characters treated as whitespace by Python's `str.strip` that can occur in
this data: ASCII whitespace plus the non-breaking space `U+00A0`. -/
def pyWSpace (c : Char) : Bool :=
  c == ' ' || c == '\t' || c == '\n' || c == '\r' || c == '\x0b' || c == '\x0c' ||
    c == '\u00A0'

/-- Python `str.strip()`: drop leading and trailing whitespace. -/
def pyStrip (s : String) : String :=
  String.mk (((s.toList.dropWhile pyWSpace).reverse.dropWhile pyWSpace).reverse)

/-- Python `s.replace('\xa0', '')`: remove every non-breaking space. -/
def stripNbsp (s : String) : String :=
  String.mk (s.toList.filter (fun c => c != '\u00A0'))

/-- Python `str.lower()` on the alphabets occurring in this data. -/
def pyLower (s : String) : String :=
  String.mk (s.toList.map Char.toLower)

/-- Python `str.isdigit()`: nonempty and every character a digit. -/
def pyIsDigit (s : String) : Bool :=
  !s.toList.isEmpty && s.toList.all Char.isDigit

/-- Numeric value of a digit string. -/
def digitsVal (l : List Char) : Nat :=
  l.foldl (fun n c => 10 * n + (c.toNat - 48)) 0

/-- Python `int(s)`: strip whitespace, then an optional sign followed by
digits; `none` models the `ValueError` raised on anything else. -/
def pyInt (s : String) : Option Int :=
  match (pyStrip s).toList with
  | [] => none
  | '+' :: rest =>
      if !rest.isEmpty && rest.all Char.isDigit then some (digitsVal rest) else none
  | '-' :: rest =>
      if !rest.isEmpty && rest.all Char.isDigit then some (-(digitsVal rest : Int)) else none
  | cs =>
      if cs.all Char.isDigit then some (digitsVal cs) else none

/-! ## HTML model

A cell records exactly the data the program inspects on a `td` element: its
class list, its (serialized) `headers` attribute, its text, and its first
anchor as a `(text, href)` pair when one is present. -/

structure Cell where
  classes : List String
  headers : Option String
  text : String
  anchor : Option (String × String)
  deriving DecidableEq

structure Row where
  cells : List Cell
  deriving DecidableEq

structure Table where
  rows : List Row
  deriving DecidableEq

/-- The fixed index page: its tables of class `table`, in document order. -/
structure IndexPage where
  tables : List Table
  deriving DecidableEq

/-- A fetched results page: its `tr` rows in document order (every `td` of the
document lives in some row). -/
structure ResultsPage where
  rows : List Row
  deriving DecidableEq

/-! ## Stable sort by an integer key

Python's `list.sort(key=lambda x: x[0])` is a stable sort by key.  Any stable
sort is extensionally determined by its input, so we model it by a stable
insertion sort and characterize its output by sortedness plus preservation of
the subsequence of elements at each key (`keyFilter`). -/

def insertByKey {α : Type} (key : α → Int) (x : α) : List α → List α
  | [] => [x]
  | y :: ys => if key x ≤ key y then x :: y :: ys else y :: insertByKey key x ys

def sortByKey {α : Type} (key : α → Int) : List α → List α
  | [] => []
  | x :: xs => insertByKey key x (sortByKey key xs)

/-- The subsequence of elements whose key is `k`. -/
def keyFilter {α : Type} (key : α → Int) (k : Int) (l : List α) : List α :=
  l.filter (fun a => key a == k)

theorem insertByKey_perm {α : Type} (key : α → Int) (x : α) (l : List α) :
    List.Perm (insertByKey key x l) (x :: l) := by
  induction l with
  | nil => simp [insertByKey]
  | cons y ys ih =>
      by_cases h : key x ≤ key y
      · simp [insertByKey, h]
      · simp only [insertByKey, if_neg h]
        exact (ih.cons y).trans (List.Perm.swap x y ys)

theorem sortByKey_perm {α : Type} (key : α → Int) (l : List α) :
    List.Perm (sortByKey key l) l := by
  induction l with
  | nil => simp [sortByKey]
  | cons x xs ih =>
      exact (insertByKey_perm key x (sortByKey key xs)).trans (ih.cons x)

theorem pairwise_insertByKey {α : Type} (key : α → Int) (x : α) (l : List α)
    (h : l.Pairwise (fun a b => key a ≤ key b)) :
    (insertByKey key x l).Pairwise (fun a b => key a ≤ key b) := by
  induction l with
  | nil => simp [insertByKey]
  | cons y ys ih =>
      rcases List.pairwise_cons.mp h with ⟨hy, hys⟩
      by_cases hxy : key x ≤ key y
      · simp only [insertByKey, if_pos hxy]
        refine List.pairwise_cons.mpr ⟨?_, h⟩
        intro b hb
        rcases List.mem_cons.mp hb with rfl | hb'
        · exact hxy
        · exact le_trans hxy (hy b hb')
      · have hyx : key y ≤ key x := le_of_lt (lt_of_not_le hxy)
        simp only [insertByKey, if_neg hxy]
        refine List.pairwise_cons.mpr ⟨?_, ih hys⟩
        intro b hb
        have hb' : b = x ∨ b ∈ ys := by
          have hmem := (insertByKey_perm key x ys).mem_iff.mp hb
          simpa using hmem
        rcases hb' with rfl | hb'
        · exact hyx
        · exact hy b hb'

theorem sortByKey_pairwise {α : Type} (key : α → Int) (l : List α) :
    (sortByKey key l).Pairwise (fun a b => key a ≤ key b) := by
  induction l with
  | nil => simp [sortByKey]
  | cons x xs ih => exact pairwise_insertByKey key x _ ih

theorem keyFilter_insertByKey {α : Type} (key : α → Int) (k : Int) (x : α) (l : List α) :
    keyFilter key k (insertByKey key x l) =
      if key x = k then x :: keyFilter key k l else keyFilter key k l := by
  induction l with
  | nil => by_cases h : key x = k <;> simp [insertByKey, keyFilter, h]
  | cons y ys ih =>
      by_cases hxy : key x ≤ key y
      · simp only [insertByKey, if_pos hxy]
        by_cases h : key x = k <;> by_cases hy : key y = k <;>
          simp [keyFilter, List.filter_cons, h, hy]
      · have hyx : key y < key x := lt_of_not_le hxy
        simp only [insertByKey, if_neg hxy]
        by_cases h : key x = k
        · have hy : ¬ key y = k := by omega
          simp [keyFilter, List.filter_cons, hy, h] at ih ⊢
          exact ih
        · by_cases hy : key y = k <;>
            simp [keyFilter, List.filter_cons, hy, h] at ih ⊢ <;> exact ih

theorem keyFilter_sortByKey {α : Type} (key : α → Int) (k : Int) (l : List α) :
    keyFilter key k (sortByKey key l) = keyFilter key k l := by
  induction l with
  | nil => rfl
  | cons x xs ih =>
      rw [sortByKey, keyFilter_insertByKey]
      by_cases h : key x = k <;> simp [keyFilter, List.filter_cons, h] at ih ⊢ <;>
        exact ih

/-- Two key-sorted lists with the same per-key subsequences are equal.  This is
the uniqueness half of the characterization of a stable sort. -/
theorem sorted_eq_of_keyFilter_eq {α : Type} (key : α → Int) :
    ∀ s1 s2 : List α, s1.Pairwise (fun a b => key a ≤ key b) →
      s2.Pairwise (fun a b => key a ≤ key b) →
      (∀ k, keyFilter key k s1 = keyFilter key k s2) → s1 = s2 := by
  intro s1
  induction s1 with
  | nil =>
      intro s2 _ _ hf
      cases s2 with
      | nil => rfl
      | cons y t2 =>
          exfalso
          have h := hf (key y)
          simp [keyFilter, List.filter_cons] at h
  | cons x t1 ih =>
      intro s2 h1 h2 hf
      cases s2 with
      | nil =>
          exfalso
          have h := hf (key x)
          simp [keyFilter, List.filter_cons] at h
      | cons y t2 =>
          have hx2 : x ∈ y :: t2 := by
            have h := hf (key x)
            have hxl : x ∈ keyFilter key (key x) (x :: t1) := by
              simp [keyFilter, List.filter_cons]
            rw [h] at hxl
            exact List.mem_of_mem_filter hxl
          have hy1 : y ∈ x :: t1 := by
            have h := (hf (key y)).symm
            have hyl : y ∈ keyFilter key (key y) (y :: t2) := by
              simp [keyFilter, List.filter_cons]
            rw [h] at hyl
            exact List.mem_of_mem_filter hyl
          have hkey : key x = key y := by
            rcases List.mem_cons.mp hx2 with h' | hx2'
            · exact congrArg key h'
            · rcases List.mem_cons.mp hy1 with h'' | hy1'
              · exact (congrArg key h'').symm
              · have hle1 : key y ≤ key x := (List.pairwise_cons.mp h2).1 x hx2'
                have hle2 : key x ≤ key y := (List.pairwise_cons.mp h1).1 y hy1'
                omega
          have hhead := hf (key x)
          rw [show keyFilter key (key x) (x :: t1) = x :: keyFilter key (key x) t1 by
                simp [keyFilter, List.filter_cons],
              show keyFilter key (key x) (y :: t2) = y :: keyFilter key (key x) t2 by
                simp [keyFilter, List.filter_cons, hkey.symm]] at hhead
          have hxy : x = y := by injection hhead
          have htail : keyFilter key (key x) t1 = keyFilter key (key x) t2 := by
            injection hhead
          subst hxy
          have ht : t1 = t2 := by
            refine ih t2 (List.pairwise_cons.mp h1).2 (List.pairwise_cons.mp h2).2 ?_
            intro k
            by_cases hk : key x = k
            · rw [← hk]; exact htail
            · have h := hf k
              simpa [keyFilter, List.filter_cons, hk] using h
          rw [ht]

/-- A stable sort depends only on the per-key subsequences of its input. -/
theorem sortByKey_ext {α : Type} (key : α → Int) (l1 l2 : List α)
    (h : ∀ k, keyFilter key k l1 = keyFilter key k l2) :
    sortByKey key l1 = sortByKey key l2 :=
  sorted_eq_of_keyFilter_eq key _ _ (sortByKey_pairwise key l1) (sortByKey_pairwise key l2)
    (fun k => by rw [keyFilter_sortByKey, keyFilter_sortByKey]; exact h k)

theorem keyFilter_map {α β : Type} (keyA : α → Int) (keyB : β → Int) (f : α → β)
    (hk : ∀ a, keyB (f a) = keyA a) (k : Int) (l : List α) :
    keyFilter keyB k (l.map f) = (keyFilter keyA k l).map f := by
  induction l with
  | nil => rfl
  | cons a t ih =>
      by_cases h : keyA a = k <;>
        simp [keyFilter, List.filter_cons, hk, h] at ih ⊢ <;> exact ih

/-- Projecting through a key-preserving map commutes with the stable sort. -/
theorem map_sortByKey {α β : Type} (keyA : α → Int) (keyB : β → Int) (f : α → β)
    (hk : ∀ a, keyB (f a) = keyA a) (l : List α) :
    (sortByKey keyA l).map f = sortByKey keyB (l.map f) := by
  refine sorted_eq_of_keyFilter_eq keyB _ _ ?_ (sortByKey_pairwise keyB _) ?_
  · exact List.Pairwise.map f (fun a b hab => by rw [hk, hk]; exact hab)
      (sortByKey_pairwise keyA l)
  · intro k
    rw [keyFilter_map keyA keyB f hk, keyFilter_sortByKey, keyFilter_sortByKey,
      keyFilter_map keyA keyB f hk]

/-- If a list determines at most one element per key, then any permutation of
it has the same per-key subsequences. -/
theorem keyFilter_eq_of_perm {α : Type} (key : α → Int) (l1 l2 : List α)
    (hp : List.Perm l1 l2)
    (hfun : ∀ p ∈ l1, ∀ q ∈ l1, key p = key q → p = q) (k : Int) :
    keyFilter key k l1 = keyFilter key k l2 := by
  have hperm : List.Perm (keyFilter key k l1) (keyFilter key k l2) := hp.filter _
  cases hf1 : keyFilter key k l1 with
  | nil =>
      rw [hf1] at hperm
      exact (hperm.symm.eq_nil).symm
  | cons x t =>
      have hxmem : x ∈ keyFilter key k l1 := by
        rw [hf1]; exact List.mem_cons_self x t
      have hxl1 : x ∈ l1 := List.mem_of_mem_filter hxmem
      have hxk : key x = k := by simpa using List.of_mem_filter hxmem
      have hall1 : ∀ z ∈ keyFilter key k l1, z = x := by
        intro z hz
        have hzl1 := List.mem_of_mem_filter hz
        have hzk : key z = k := by simpa using List.of_mem_filter hz
        exact hfun z hzl1 x hxl1 (by rw [hzk, hxk])
      have hall2 : ∀ z ∈ keyFilter key k l2, z = x := fun z hz =>
        hall1 z (hperm.mem_iff.mpr hz)
      rw [← hf1]
      rw [List.eq_replicate_of_mem hall1, List.eq_replicate_of_mem hall2,
        hperm.length_eq]

/-! ## Python dict model

A `dict` is an association list with unique keys in insertion order:
assignment `d[k] = v` updates the existing entry in place or appends a new
one; lookup returns the first (only) entry. -/

def PyDict : Type := List (String × String)

instance : DecidableEq PyDict := by
  unfold PyDict; infer_instance

def dget : PyDict → String → Option String
  | [], _ => none
  | (k', v) :: t, k => if k' = k then some v else dget t k

def dset : PyDict → String → String → PyDict
  | [], k, v => [(k, v)]
  | (k', v') :: t, k, v =>
      if k' = k then (k, v) :: t else (k', v') :: dset t k v

theorem dget_dset_self (d : PyDict) (k v : String) :
    dget (dset d k v) k = some v := by
  induction d with
  | nil => simp [dget, dset]
  | cons p t ih =>
      by_cases h : p.1 = k <;> simp [dget, dset, h, ih]

theorem dget_dset_ne (d : PyDict) (k' k v : String) (h : k' ≠ k) :
    dget (dset d k' v) k = dget d k := by
  induction d with
  | nil => simp [dget, dset, h]
  | cons p t ih =>
      by_cases h1 : p.1 = k' <;> by_cases h2 : p.1 = k <;>
        simp_all [dget, dset]

/-- The value of the last assignment with key `k` among the in-order writes
`l`, if any: later entries of `l` win. -/
def lastWrite : List (String × String) → String → Option String
  | [], _ => none
  | (n, v) :: t, k =>
      match lastWrite t k with
      | some w => some w
      | none => if n = k then some v else none

/-- Folding a list of writes into a dict: a key's final value is its last
write if one exists, else whatever the starting dict had. -/
theorem dget_foldl_dset (l : List (String × String)) (d : PyDict) (k : String) :
    dget (l.foldl (fun d p => dset d p.1 p.2) d) k =
      match lastWrite l k with
      | some v => some v
      | none => dget d k := by
  induction l generalizing d with
  | nil => simp [lastWrite]
  | cons p t ih =>
      rw [List.foldl_cons, ih]
      cases ht : lastWrite t k with
      | some w => simp [lastWrite, ht]
      | none =>
          by_cases h : p.1 = k
          · subst h; simp [lastWrite, ht, dget_dset_self]
          · simp [lastWrite, ht, h, dget_dset_ne _ _ _ _ h]

/-! ## Stable de-duplication of party names

Models the final loop of `main`: walk the code-sorted accumulated pairs,
keeping the first occurrence of each distinct name (`seen` is the set of
names already emitted). -/

def dedupNames : List (Int × String) → List String → List String
  | [], _ => []
  | (_, n) :: t, seen =>
      if n ∈ seen then dedupNames t seen else n :: dedupNames t (n :: seen)

theorem dedupNames_not_mem_seen :
    ∀ (l : List (Int × String)) (seen : List String) (x : String),
      x ∈ dedupNames l seen → x ∉ seen := by
  intro l
  induction l with
  | nil => intro seen x hx; simp [dedupNames] at hx
  | cons p t ih =>
      intro seen x hx
      by_cases h : p.2 ∈ seen
      · rw [show dedupNames (p :: t) seen = dedupNames t seen by
            cases p; simp [dedupNames, h]] at hx
        exact ih seen x hx
      · rw [show dedupNames (p :: t) seen = p.2 :: dedupNames t (p.2 :: seen) by
            cases p; simp [dedupNames, h]] at hx
        rcases List.mem_cons.mp hx with rfl | hx'
        · exact h
        · have := ih (p.2 :: seen) x hx'
          exact fun hc => this (List.mem_cons_of_mem _ hc)

theorem dedupNames_nodup :
    ∀ (l : List (Int × String)) (seen : List String), (dedupNames l seen).Nodup := by
  intro l
  induction l with
  | nil => intro seen; simp [dedupNames]
  | cons p t ih =>
      intro seen
      by_cases h : p.2 ∈ seen
      · rw [show dedupNames (p :: t) seen = dedupNames t seen by
            cases p; simp [dedupNames, h]]
        exact ih seen
      · rw [show dedupNames (p :: t) seen = p.2 :: dedupNames t (p.2 :: seen) by
            cases p; simp [dedupNames, h]]
        refine List.nodup_cons.mpr ⟨?_, ih _⟩
        intro hc
        exact (dedupNames_not_mem_seen _ _ _ hc) (List.mem_cons_self _ _)

theorem dedupNames_toFinset :
    ∀ (l : List (Int × String)) (seen : List String),
      (dedupNames l seen).toFinset = (l.map Prod.snd).toFinset \ seen.toFinset := by
  intro l
  induction l with
  | nil => intro seen; simp [dedupNames]
  | cons p t ih =>
      intro seen
      by_cases h : p.2 ∈ seen
      · rw [show dedupNames (p :: t) seen = dedupNames t seen by
            cases p; simp [dedupNames, h]]
        rw [ih]
        ext x
        simp only [List.map_cons, List.toFinset_cons, Finset.mem_sdiff,
          Finset.mem_insert, List.mem_toFinset]
        constructor
        · rintro ⟨hx, hns⟩; exact ⟨Or.inr hx, hns⟩
        · rintro ⟨hx | hx, hns⟩
          · exact absurd (hx ▸ h) hns
          · exact ⟨hx, hns⟩
      · rw [show dedupNames (p :: t) seen = p.2 :: dedupNames t (p.2 :: seen) by
            cases p; simp [dedupNames, h]]
        rw [List.toFinset_cons, ih]
        ext x
        simp only [List.map_cons, List.toFinset_cons, Finset.mem_insert,
          Finset.mem_sdiff, List.mem_toFinset, List.mem_cons]
        constructor
        · rintro (rfl | ⟨hx, hns⟩)
          · exact ⟨Or.inl rfl, h⟩
          · exact ⟨Or.inr hx, fun hc => hns (Or.inr hc)⟩
        · rintro ⟨rfl | hx, hns⟩
          · exact Or.inl rfl
          · by_cases hxp : x = p.2
            · exact Or.inl hxp
            · exact Or.inr ⟨hx, fun hc => by
                rcases hc with hc | hc
                · exact hxp hc
                · exact hns hc⟩

theorem dedupNames_length (l : List (Int × String)) :
    (dedupNames l []).length = ((l.map Prod.snd).toFinset).card := by
  have h1 : (dedupNames l []).toFinset.card = (dedupNames l []).length :=
    List.toFinset_card_of_nodup (dedupNames_nodup l [])
  rw [← h1, dedupNames_toFinset]
  simp

/-! ## District Locator (`get_url_from_name`, main.py lines 93-124) -/

/-- Base path prefixed to relative hrefs throughout the program. -/
def volbyBase : String := "https://www.volby.cz/pls/ps2017nss/"

inductive LocResult where
  | url (s : String)
  | invalidInput
  | notFound
  | pyCrash
  deriving DecidableEq

/-- Inner loop of `get_url_from_name`: scan rows, require more than 3 cells,
compare cell 2 (index 1) case-insensitively against the name, and on the first
match build the URL from the anchor of cell 4 (index 3). A matching cell
without an anchor makes Python crash (`None` subscripted), modelled by
`pyCrash`. `none` means no match in these rows. -/
def locScanRows (name : String) : List Row → Option LocResult
  | [] => none
  | row :: rest =>
      match row.cells with
      | _c0 :: c1 :: _c2 :: c3 :: _cs =>
          if pyLower (pyStrip c1.text) = pyLower name then
            some (match c3.anchor with
              | some a => .url (volbyBase ++ a.2)
              | none => .pyCrash)
          else locScanRows name rest
      | _ => locScanRows name rest

/-- Outer loop of `get_url_from_name`: try each table, skipping its first two
rows. -/
def locScanTables (name : String) : List Table → Option LocResult
  | [] => none
  | t :: ts =>
      match locScanRows name (t.rows.drop 2) with
      | some r => some r
      | none => locScanTables name ts

/-- `get_url_from_name`.  The index page is fetched through the oracle
`fetchIndex`; the second component counts the fetches performed, so that
"aborts before any fetch" is expressible. -/
def get_url_from_name (fetchIndex : Unit → IndexPage) (name : String) :
    LocResult × Nat :=
  if pyIsDigit name then (.invalidInput, 0)
  else
    match locScanTables name (fetchIndex ()).tables with
    | some r => (r, 1)
    | none => (.notFound, 1)

/-! ## District Stat Extractor (`extract_district_stats`, lines 127-145) -/

def allCells (page : ResultsPage) : List Cell :=
  (page.rows.map Row.cells).flatten

/-- `soup.find('td', {'headers': h})`: first `td` of the document whose
`headers` attribute is `h`. -/
def findTdByHeaders (page : ResultsPage) (h : String) : Option Cell :=
  (allCells page).find? (fun c => c.headers == some h)

structure DistrictStats where
  registered : String
  envelopes : String
  valid : String
  deriving DecidableEq

/-- `extract_district_stats`: each statistic is the matching cell's text,
stripped then with non-breaking spaces removed, or `"N/A"` when the cell is
absent. -/
def extract_district_stats (page : ResultsPage) : DistrictStats :=
  let f := fun h =>
    match findTdByHeaders page h with
    | some c => stripNbsp (pyStrip c.text)
    | none => "N/A"
  ⟨f "sa2", f "sa3", f "sa6"⟩

/-- The initial dict literal built by `extract_district_stats`. -/
def statsDict (s : DistrictStats) : PyDict :=
  [("registered", s.registered), ("envelopes", s.envelopes), ("valid", s.valid)]

/-! ## Party Vote Extractor (`extract_party_data`, lines 148-170) -/

/-- The two header-reference variants of the party-code cell. -/
def headerVariant1 : String := "t1sa1 t1sb1"
def headerVariant2 : String := "t2sa1 t2sb1"

/-- `row.find('td', {'class': 'cislo', 'headers': [variant1, variant2]})`. -/
def isCodeCell (c : Cell) : Bool :=
  c.classes.contains "cislo" &&
    (c.headers == some headerVariant1 || c.headers == some headerVariant2)

/-- `row.find('td', class_='overflow_name')`. -/
def isNameCell (c : Cell) : Bool :=
  c.classes.contains "overflow_name"

/-- `row.find_all('td', class_='cislo')` membership. -/
def isNumericCell (c : Cell) : Bool :=
  c.classes.contains "cislo"

/-- `extract_party_data`: emits `(code, name, votes)` when the code cell, the
name cell and a second generic numeric cell all resolve and the code parses as
an integer; `none` (row silently skipped) otherwise. -/
def extract_party_data (row : Row) : Option (Int × String × String) :=
  match row.cells.find? isCodeCell, row.cells.find? isNameCell,
      row.cells.filter isNumericCell with
  | some cc, some pc, _v0 :: v1 :: _vs =>
      match pyInt (pyStrip cc.text) with
      | some n => some (n, pyStrip pc.text, stripNbsp (pyStrip v1.text))
      | none => none
  | _, _, _ => none

/-! ## Aggregation (`fetch_district_data`, `process_district_row`, `main`) -/

/-- The party triples found on a results page, in document order. -/
def partyTriples (page : ResultsPage) : List (Int × String × String) :=
  page.rows.filterMap extract_party_data

/-- `fetch_district_data` (minus the fetch): sort the triples by code
(stable), fold the `(name → votes)` writes into the stats dict, and return the
dict together with the code-sorted `(code, name)` pairs. -/
def fetch_district_data (page : ResultsPage) : PyDict × List (Int × String) :=
  let sorted := sortByKey (fun t => t.1) (partyTriples page)
  let d := sorted.foldl (fun d t => dset d t.2.1 t.2.2)
    (statsDict (extract_district_stats page))
  (d, sorted.map (fun t => (t.1, t.2.1)))

/-- The in-order `(name, votes)` writes folded into a district's dict. -/
def partyWrites (page : ResultsPage) : List (String × String) :=
  (sortByKey (fun t => t.1) (partyTriples page)).map (fun t => (t.2.1, t.2.2))

/-- `process_district_row`: code from the first cell's anchor text, name from
the second cell, URL from the first cell's anchor href.  `none` models the
Python crash on a missing cell or anchor. -/
def process_district_row (row : Row) : Option (String × String × String) :=
  match row.cells with
  | c0 :: c1 :: _ =>
      match c0.anchor with
      | some a => some (pyStrip a.1, pyStrip c1.text, volbyBase ++ a.2)
      | none => none
  | _ => none

/-- The row filter of `main`'s loop:
`len(cells) > 1 and cells[0].get('class') == ['cislo']`. -/
def isDistrictDataRow (row : Row) : Bool :=
  match row.cells with
  | c0 :: _ :: _ => c0.classes == ["cislo"]
  | _ => false

/-- A district's final record: the fetched data dict with `code` and
`location` assigned afterwards (main.py lines 265-266). -/
def assembleRecord (page : ResultsPage) (code location : String) : PyDict :=
  dset (dset (fetch_district_data page).1 "code" code) "location" location

inductive MainErr where
  | emptyResult
  | pyCrash
  deriving DecidableEq

/-- The traversal loop of `main` (lines 260-268), accumulating the district
dicts and the `(code, name)` pairs.  A selected row that makes
`process_district_row` crash aborts the run. -/
def mainLoop (fetch : String → ResultsPage) :
    List Row → List PyDict → List (Int × String) →
      Except MainErr (List PyDict × List (Int × String))
  | [], ds, ps => .ok (ds, ps)
  | row :: rest, ds, ps =>
      if isDistrictDataRow row then
        match process_district_row row with
        | some (code, location, url) =>
            mainLoop fetch rest (ds ++ [assembleRecord (fetch url) code location])
              (ps ++ (fetch_district_data (fetch url)).2)
        | none => .error .pyCrash
      else mainLoop fetch rest ds ps

/-- Lines 274-280 of `main`: sort the accumulated pairs by code and keep the
first occurrence of each distinct name. -/
def globalPartyOrder (ps : List (Int × String)) : List String :=
  dedupNames (sortByKey Prod.fst ps) []

/-- `main` from the fetched second-level page to the data handed to the
exporter. -/
def mainAggregate (fetch : String → ResultsPage) (page : ResultsPage) :
    Except MainErr (List PyDict × List String) :=
  match mainLoop fetch page.rows [] [] with
  | .error e => .error e
  | .ok (ds, ps) =>
      if ds = [] then .error .emptyResult
      else .ok (ds, globalPartyOrder ps)

/-! ## Exporter interface (`write_to_csv`, lines 201-222) -/

def csvColumns (partyNames : List String) : List String :=
  ["code", "location", "registered", "envelopes", "valid"] ++ partyNames

/-- `entry.get(col, "0")`. -/
def csvCell (entry : PyDict) (col : String) : String :=
  (dget entry col).getD "0"

/-- The table handed to the CSV writer: header then one row of cell values per
district record. -/
def write_to_csv (entries : List PyDict) (partyNames : List String) :
    List String × List (List String) :=
  (csvColumns partyNames, entries.map (fun e => (csvColumns partyNames).map (csvCell e)))

/-- The full run from the second-level page on: the export table is produced
only when aggregation succeeds. -/
def mainRun (fetch : String → ResultsPage) (page : ResultsPage) :
    Except MainErr (List String × List (List String)) :=
  match mainAggregate fetch page with
  | .error e => .error e
  | .ok (ds, order) => .ok (write_to_csv ds order)

/-! ## Spec-side formulations and bridging lemmas -/

/-- The raw `(code, name)` pairs emitted by the Party Vote Extractor on one
page, in document order (before any sorting). -/
def rawPairsOfPage (page : ResultsPage) : List (Int × String) :=
  (partyTriples page).map (fun t => (t.1, t.2.1))

/-- The accumulation, across the traversal, of every raw pair emitted by the
extractor, in district order (the claim's "accumulated list" prior to the
per-district sorting the code happens to interpose). -/
def rawAccum (fetch : String → ResultsPage) : List Row → List (Int × String)
  | [] => []
  | row :: rest =>
      if isDistrictDataRow row then
        match process_district_row row with
        | some (_, _, url) => rawPairsOfPage (fetch url) ++ rawAccum fetch rest
        | none => rawAccum fetch rest
      else rawAccum fetch rest

theorem fetch_district_data_snd (page : ResultsPage) :
    (fetch_district_data page).2 = sortByKey Prod.fst (rawPairsOfPage page) := by
  simp only [fetch_district_data, rawPairsOfPage]
  exact map_sortByKey (fun t => t.1) Prod.fst (fun t => (t.1, t.2.1)) (fun _ => rfl)
    (partyTriples page)

theorem keyFilter_append {α : Type} (key : α → Int) (k : Int) (l1 l2 : List α) :
    keyFilter key k (l1 ++ l2) = keyFilter key k l1 ++ keyFilter key k l2 := by
  simp [keyFilter, List.filter_append]

/-- Through a successful traversal, the accumulated pair list has the same
per-key subsequences as the raw accumulation of extractor output. -/
theorem mainLoop_ok_keyFilter (fetch : String → ResultsPage) :
    ∀ (rows : List Row) (ds : List PyDict) (ps : List (Int × String))
      (dsf : List PyDict) (psf : List (Int × String)),
      mainLoop fetch rows ds ps = .ok (dsf, psf) →
      ∀ k, keyFilter Prod.fst k psf =
        keyFilter Prod.fst k (ps ++ rawAccum fetch rows) := by
  intro rows
  induction rows with
  | nil =>
      intro ds ps dsf psf h k
      simp [mainLoop] at h
      rw [← h.2]
      simp [rawAccum]
  | cons row rest ih =>
      intro ds ps dsf psf h k
      by_cases hsel : isDistrictDataRow row = true
      · rw [mainLoop, if_pos hsel] at h
        cases hpr : process_district_row row with
        | none => simp [hpr] at h
        | some v =>
            obtain ⟨code, location, url⟩ := v
            simp only [hpr] at h
            have hih := ih _ _ _ _ h k
            rw [hih, rawAccum, if_pos hsel]
            simp only [hpr]
            rw [keyFilter_append, keyFilter_append, keyFilter_append,
              fetch_district_data_snd, keyFilter_sortByKey, List.append_assoc,
              keyFilter_append]
      · rw [mainLoop, if_neg hsel] at h
        have hih := ih _ _ _ _ h k
        rw [hih, rawAccum, if_neg hsel]

/-- Every record collected by a successful traversal is an assembled district
record. -/
theorem mainLoop_ok_mem (fetch : String → ResultsPage) :
    ∀ (rows : List Row) (ds : List PyDict) (ps : List (Int × String))
      (dsf : List PyDict) (psf : List (Int × String)),
      mainLoop fetch rows ds ps = .ok (dsf, psf) →
      ∀ e ∈ dsf, e ∈ ds ∨
        ∃ page code location, e = assembleRecord page code location := by
  intro rows
  induction rows with
  | nil =>
      intro ds ps dsf psf h e he
      simp [mainLoop] at h
      rw [← h.1] at he
      exact Or.inl he
  | cons row rest ih =>
      intro ds ps dsf psf h e he
      by_cases hsel : isDistrictDataRow row = true
      · rw [mainLoop, if_pos hsel] at h
        cases hpr : process_district_row row with
        | none => simp [hpr] at h
        | some v =>
            obtain ⟨code, location, url⟩ := v
            simp only [hpr] at h
            rcases ih _ _ _ _ h e he with hmem | hrec
            · rcases List.mem_append.mp hmem with hmem' | hmem'
              · exact Or.inl hmem'
              · rcases List.mem_singleton.mp hmem' with rfl
                exact Or.inr ⟨fetch url, code, location, rfl⟩
            · exact Or.inr hrec
      · rw [mainLoop, if_neg hsel] at h
        exact ih _ _ _ _ h e he

/-- The spec's candidate-row predicate for the District Locator: a row with
more than 3 cells whose cell 2 matches the supplied name case-insensitively
and exactly. -/
def rowMatchesName (name : String) (row : Row) : Bool :=
  match row.cells with
  | _ :: c1 :: _ :: _ :: _ => pyLower (pyStrip c1.text) == pyLower name
  | _ => false

/-- The result produced from a matched index row: the absolute URL built from
the anchor of cell 4, or the Python crash when that cell has no anchor. -/
def locRowResult (row : Row) : LocResult :=
  match row.cells with
  | _ :: _ :: _ :: c3 :: _ =>
      match c3.anchor with
      | some a => .url (volbyBase ++ a.2)
      | none => .pyCrash
  | _ => .pyCrash

/-- All candidate rows of the index page, in document order: each table's rows
with the first two skipped, tables in order. -/
def indexCandidates (page : IndexPage) : List Row :=
  (page.tables.map (fun t => t.rows.drop 2)).flatten

theorem locScanRows_eq (name : String) :
    ∀ rows : List Row,
      locScanRows name rows = (rows.find? (rowMatchesName name)).map locRowResult := by
  intro rows
  induction rows with
  | nil => rfl
  | cons row rest ih =>
      rcases hc : row.cells with _ | ⟨c0, _ | ⟨c1, _ | ⟨c2, _ | ⟨c3, cs⟩⟩⟩⟩ <;>
        simp only [locScanRows, hc, rowMatchesName, List.find?_cons] <;>
        try exact ih
      by_cases hm : pyLower (pyStrip c1.text) = pyLower name
      · simp [hm, locRowResult, hc]
      · have hbeq : (pyLower (pyStrip c1.text) == pyLower name) = false := by
          simp [hm]
        simp [hbeq, hm, ih]

theorem locScanTables_eq (name : String) :
    ∀ ts : List Table,
      locScanTables name ts =
        (((ts.map (fun t => t.rows.drop 2)).flatten).find? (rowMatchesName name)).map
          locRowResult := by
  intro ts
  induction ts with
  | nil => rfl
  | cons t ts ih =>
      rw [locScanTables, locScanRows_eq]
      cases hf : (t.rows.drop 2).find? (rowMatchesName name) with
      | some row => simp [List.find?_append, hf]
      | none => simp [List.find?_append, hf, ih]

/-- The final dict of `fetch_district_data`: a key's value is its last party
write when the key collides with a party name, else the stats entry. -/
theorem dget_fetch_district_data (page : ResultsPage) (k : String) :
    dget (fetch_district_data page).1 k =
      match lastWrite (partyWrites page) k with
      | some v => some v
      | none => dget (statsDict (extract_district_stats page)) k := by
  have h := dget_foldl_dset
    ((sortByKey (fun t => t.1) (partyTriples page)).map (fun t => (t.2.1, t.2.2)))
    (statsDict (extract_district_stats page)) k
  simp only [List.foldl_map] at h
  simp only [fetch_district_data, partyWrites]
  exact h

/-- Unpacking a successful `mainAggregate`. -/
theorem mainAggregate_ok (fetch : String → ResultsPage) (page : ResultsPage)
    (ds : List PyDict) (order : List String)
    (h : mainAggregate fetch page = .ok (ds, order)) :
    ∃ ps, mainLoop fetch page.rows [] [] = .ok (ds, ps) ∧ ds ≠ [] ∧
      order = globalPartyOrder ps := by
  unfold mainAggregate at h
  rcases hml : mainLoop fetch page.rows [] [] with e | p
  · rw [hml] at h; simp at h
  · obtain ⟨ds2, ps⟩ := p
    rw [hml] at h
    by_cases hds : ds2 = []
    · simp [hds] at h
    · simp only [hds, if_false, ite_false] at h
      have h2 : ds2 = ds ∧ globalPartyOrder ps = order := by simpa using h
      obtain ⟨rfl, h3⟩ := h2
      exact ⟨ps, rfl, hds, h3.symm⟩

/-! ### Claim theorems -/

/-- C5: for every district-name input whose text is purely numeric, the
District Locator fails with `InvalidInput` and the run aborts before any page
fetch is attempted (the fetch count is 0). -/
theorem numeric_name_invalid_input (fetchIndex : Unit → IndexPage) (name : String)
    (h : pyIsDigit name = true) :
    get_url_from_name fetchIndex name = (.invalidInput, 0) := by
  simp [get_url_from_name, h]

/-- Witness for C5 at the spec's own scenario input `"12345"`. -/
theorem numeric_name_invalid_input_witness :
    get_url_from_name (fun _ => ⟨[]⟩) "12345" = (.invalidInput, 0) :=
  numeric_name_invalid_input (fun _ => ⟨[]⟩) "12345" rfl

/-- C6: for every non-numeric name the locator fetches the fixed index page
exactly once, scans each table's rows with the first two skipped, compares
cell 2 case-insensitively and exactly against the name, returns on the first
match the absolute URL built from the anchor of cell 4, and fails with
`NotFound` when no row of any table matches. -/
theorem district_locator_scan (fetchIndex : Unit → IndexPage) (name : String)
    (h : pyIsDigit name = false) :
    (get_url_from_name fetchIndex name).2 = 1
    ∧ ((indexCandidates (fetchIndex ())).find? (rowMatchesName name) = none →
        (get_url_from_name fetchIndex name).1 = .notFound)
    ∧ (∀ row c0 c1 c2 c3 cs a,
        (indexCandidates (fetchIndex ())).find? (rowMatchesName name) = some row →
        row.cells = c0 :: c1 :: c2 :: c3 :: cs →
        c3.anchor = some a →
        (get_url_from_name fetchIndex name).1 = .url (volbyBase ++ a.2)) := by
  have hg : get_url_from_name fetchIndex name =
      match ((indexCandidates (fetchIndex ())).find? (rowMatchesName name)).map
          locRowResult with
      | some r => (r, 1)
      | none => (LocResult.notFound, 1) := by
    rw [get_url_from_name, if_neg (by simp [h]), locScanTables_eq]
    rfl
  refine ⟨?_, ?_, ?_⟩
  · rw [hg]
    cases (indexCandidates (fetchIndex ())).find? (rowMatchesName name) <;> rfl
  · intro hf
    rw [hg, hf]
    rfl
  · intro row c0 c1 c2 c3 cs a hf hcells hanchor
    rw [hg, hf]
    simp [locRowResult, hcells, hanchor]

/-- Witness for C6: a concrete index page where "praha" matches row cell 2 of
the first table after the two skipped rows, and the URL comes from cell 4. -/
theorem district_locator_scan_witness :
    (get_url_from_name (fun _ => ⟨[⟨[⟨[]⟩, ⟨[]⟩,
        ⟨[⟨[], none, "x", none⟩, ⟨[], none, " Praha ", none⟩, ⟨[], none, "y", none⟩,
          ⟨[], none, "z", some ("X", "ps2?xkraj=1")⟩]⟩]⟩]⟩) "praha").1 =
      .url (volbyBase ++ "ps2?xkraj=1") :=
  (district_locator_scan _ "praha" rfl).2.2
    ⟨[⟨[], none, "x", none⟩, ⟨[], none, " Praha ", none⟩, ⟨[], none, "y", none⟩,
      ⟨[], none, "z", some ("X", "ps2?xkraj=1")⟩]⟩
    ⟨[], none, "x", none⟩ ⟨[], none, " Praha ", none⟩ ⟨[], none, "y", none⟩
    ⟨[], none, "z", some ("X", "ps2?xkraj=1")⟩ [] ("X", "ps2?xkraj=1") rfl rfl rfl

/-- C7: the District Stat Extractor never fails: each of the three statistics
is the matching cell's text with non-breaking spaces removed and surrounding
whitespace trimmed when that cell is present, and the sentinel `"N/A"` when it
is absent. -/
theorem district_stats_total (page : ResultsPage) :
    ((∀ c, findTdByHeaders page "sa2" = some c →
        (extract_district_stats page).registered = stripNbsp (pyStrip c.text))
      ∧ (findTdByHeaders page "sa2" = none →
        (extract_district_stats page).registered = "N/A"))
    ∧ ((∀ c, findTdByHeaders page "sa3" = some c →
        (extract_district_stats page).envelopes = stripNbsp (pyStrip c.text))
      ∧ (findTdByHeaders page "sa3" = none →
        (extract_district_stats page).envelopes = "N/A"))
    ∧ ((∀ c, findTdByHeaders page "sa6" = some c →
        (extract_district_stats page).valid = stripNbsp (pyStrip c.text))
      ∧ (findTdByHeaders page "sa6" = none →
        (extract_district_stats page).valid = "N/A")) := by
  refine ⟨⟨?_, ?_⟩, ⟨?_, ?_⟩, ⟨?_, ?_⟩⟩
  · intro c hc; simp [extract_district_stats, hc]
  · intro hc; simp [extract_district_stats, hc]
  · intro c hc; simp [extract_district_stats, hc]
  · intro hc; simp [extract_district_stats, hc]
  · intro c hc; simp [extract_district_stats, hc]
  · intro hc; simp [extract_district_stats, hc]

/-- A one-cell results page carrying a registered-voters cell. -/
def statPage : ResultsPage := ⟨[⟨[⟨[], some "sa2", " 1\u00A0000 ", none⟩]⟩]⟩

/-- An empty results page: every statistic cell is absent. -/
def emptyStatPage : ResultsPage := ⟨[]⟩

/-- Witness for C7: a present cell yields its cleaned text, an absent cell
yields "N/A". -/
theorem district_stats_total_witness :
    (extract_district_stats statPage).registered = stripNbsp (pyStrip " 1\u00A0000 ")
    ∧ (extract_district_stats emptyStatPage).valid = "N/A" :=
  ⟨(district_stats_total statPage).1.1 ⟨[], some "sa2", " 1\u00A0000 ", none⟩ rfl,
   (district_stats_total emptyStatPage).2.2.2 rfl⟩

/-- C8: a traversal that collects zero district records aborts with
`EmptyResult`; no export table is produced. -/
theorem empty_result_aborts (fetch : String → ResultsPage) (page : ResultsPage)
    (ps : List (Int × String))
    (h : mainLoop fetch page.rows [] [] = .ok ([], ps)) :
    mainRun fetch page = .error .emptyResult := by
  simp [mainRun, mainAggregate, h]

/-- Witness for C8: a page whose only row is not a district data row. -/
theorem empty_result_aborts_witness :
    mainRun (fun _ => ⟨[]⟩) ⟨[⟨[]⟩]⟩ = .error .emptyResult :=
  empty_result_aborts (fun _ => ⟨[]⟩) ⟨[⟨[]⟩]⟩ [] rfl

/-- C10: key collisions in the district record resolve by write order: the
three statistics are written first, then the code-sorted party
`(name → votes)` writes (so a party literally named "registered",
"envelopes" or "valid" overwrites that statistic with its vote count — the
last such write winning), and `code` and `location` are written last (so they
always hold the district's code and name, overwriting any party of those
names). -/
theorem record_key_collision (page : ResultsPage) (code location : String) :
    dget (assembleRecord page code location) "code" = some code
    ∧ dget (assembleRecord page code location) "location" = some location
    ∧ dget (assembleRecord page code location) "registered" =
        some ((lastWrite (partyWrites page) "registered").getD
          (extract_district_stats page).registered)
    ∧ dget (assembleRecord page code location) "envelopes" =
        some ((lastWrite (partyWrites page) "envelopes").getD
          (extract_district_stats page).envelopes)
    ∧ dget (assembleRecord page code location) "valid" =
        some ((lastWrite (partyWrites page) "valid").getD
          (extract_district_stats page).valid) := by
  unfold assembleRecord
  refine ⟨?_, ?_, ?_, ?_, ?_⟩
  · rw [dget_dset_ne _ _ _ _ (by decide), dget_dset_self]
  · rw [dget_dset_self]
  · rw [dget_dset_ne _ _ _ _ (by decide), dget_dset_ne _ _ _ _ (by decide),
      dget_fetch_district_data]
    cases lastWrite (partyWrites page) "registered" <;> rfl
  · rw [dget_dset_ne _ _ _ _ (by decide), dget_dset_ne _ _ _ _ (by decide),
      dget_fetch_district_data]
    cases lastWrite (partyWrites page) "envelopes" <;> rfl
  · rw [dget_dset_ne _ _ _ _ (by decide), dget_dset_ne _ _ _ _ (by decide),
      dget_fetch_district_data]
    cases lastWrite (partyWrites page) "valid" <;> rfl

/-- C4: a table row yields a party triple if and only if it has a code cell
matching one of the two header-reference variants, a party-name marker cell,
and at least two generic numeric cells, and the code cell's text parses as an
integer; the emitted triple carries that parsed code, the trimmed party name,
and the second numeric cell's text cleaned of non-breaking spaces; every
other row is silently skipped (`none`), never an error. -/
theorem party_extractor_spec (row : Row) :
    ((extract_party_data row).isSome = true ↔
      ((∃ cc, row.cells.find? isCodeCell = some cc ∧
          (pyInt (pyStrip cc.text)).isSome = true)
        ∧ (row.cells.find? isNameCell).isSome = true
        ∧ 1 < (row.cells.filter isNumericCell).length))
    ∧ (∀ code pname votes, extract_party_data row = some (code, pname, votes) →
        ∃ cc pc v0 v1 vs,
          row.cells.find? isCodeCell = some cc ∧
          row.cells.find? isNameCell = some pc ∧
          row.cells.filter isNumericCell = v0 :: v1 :: vs ∧
          pyInt (pyStrip cc.text) = some code ∧
          pname = pyStrip pc.text ∧
          votes = stripNbsp (pyStrip v1.text)) := by
  rcases hcc : row.cells.find? isCodeCell with _ | cc
  · constructor
    · rw [show extract_party_data row = none by
          unfold extract_party_data; rw [hcc]]
      simp
    · intro code pname votes hx
      rw [show extract_party_data row = none by
          unfold extract_party_data; rw [hcc]] at hx
      exact absurd hx (by simp)
  · rcases hpc : row.cells.find? isNameCell with _ | pc
    · constructor
      · rw [show extract_party_data row = none by
            unfold extract_party_data; rw [hcc, hpc]]
        simp [hpc]
      · intro code pname votes hx
        rw [show extract_party_data row = none by
            unfold extract_party_data; rw [hcc, hpc]] at hx
        exact absurd hx (by simp)
    · rcases hvc : row.cells.filter isNumericCell with _ | ⟨v0, _ | ⟨v1, vs⟩⟩
      · constructor
        · rw [show extract_party_data row = none by
              unfold extract_party_data; rw [hcc, hpc, hvc]]
          simp [hvc]
        · intro code pname votes hx
          rw [show extract_party_data row = none by
              unfold extract_party_data; rw [hcc, hpc, hvc]] at hx
          exact absurd hx (by simp)
      · constructor
        · rw [show extract_party_data row = none by
              unfold extract_party_data; rw [hcc, hpc, hvc]]
          simp [hvc]
        · intro code pname votes hx
          rw [show extract_party_data row = none by
              unfold extract_party_data; rw [hcc, hpc, hvc]] at hx
          exact absurd hx (by simp)
      · have hx : extract_party_data row =
            match pyInt (pyStrip cc.text) with
            | some n => some (n, pyStrip pc.text, stripNbsp (pyStrip v1.text))
            | none => none := by
          unfold extract_party_data; rw [hcc, hpc, hvc]
        cases hpi : pyInt (pyStrip cc.text) with
        | none =>
            rw [hpi] at hx
            constructor
            · rw [hx]
              simp [hcc, hpi]
            · intro code pname votes hemit
              rw [hx] at hemit
              exact absurd hemit (by simp)
        | some n =>
            rw [hpi] at hx
            constructor
            · rw [hx]
              simp [hcc, hpc, hvc, hpi]
            · intro code pname votes hemit
              rw [hx] at hemit
              obtain ⟨h1, h2, h3⟩ :
                  n = code ∧ pyStrip pc.text = pname ∧
                    stripNbsp (pyStrip v1.text) = votes := by
                simpa using hemit
              exact ⟨cc, pc, v0, v1, vs, rfl, rfl, rfl, h1 ▸ hpi, h2.symm, h3.symm⟩

/-- A concrete party data row: code cell, name cell, votes cell. -/
def samplePartyRow : Row :=
  ⟨[⟨["cislo"], some "t1sa1 t1sb1", "5", none⟩,
    ⟨["overflow_name"], none, " Party X ", none⟩,
    ⟨["cislo"], none, "1\u00A0234", none⟩]⟩

/-- Witness for C4: the sample row emits a triple with the parsed code, the
trimmed name, and the cleaned second numeric cell. -/
theorem party_extractor_spec_witness :
    ∃ cc pc v0 v1 vs,
      samplePartyRow.cells.find? isCodeCell = some cc ∧
      samplePartyRow.cells.find? isNameCell = some pc ∧
      samplePartyRow.cells.filter isNumericCell = v0 :: v1 :: vs ∧
      pyInt (pyStrip cc.text) = some 5 ∧
      "Party X" = pyStrip pc.text ∧
      "1234" = stripNbsp (pyStrip v1.text) :=
  (party_extractor_spec samplePartyRow).2 5 "Party X" "1234" rfl

/-- The spec's selection predicate for C9, read literally: the row's first
cell carries the data-row marker class. -/
def specSelectedRow (row : Row) : Bool :=
  match row.cells.head? with
  | some c0 => c0.classes == ["cislo"]
  | none => false

/-- Counterexample for C9 as stated: a row consisting of a single marked cell
satisfies "its first cell carries the data-row marker class", but `main`'s
loop does not select it, because the loop additionally requires more than one
cell. -/
theorem row_selection_counterexample :
    specSelectedRow ⟨[⟨["cislo"], none, "", none⟩]⟩ = true
    ∧ isDistrictDataRow ⟨[⟨["cislo"], none, "", none⟩]⟩ = false :=
  ⟨rfl, rfl⟩

/-- C9 (amended): the Row Extractor is applied to exactly those rows that
have more than one cell and whose first cell's class list is exactly the
marker class; for each such row whose first cell has an anchor it returns the
trimmed anchor text as code, the trimmed second-cell text as name, and the
base path prefixed to the anchor's href as url. -/
theorem row_selection_amended (row : Row) :
    (isDistrictDataRow row = true ↔
      ∃ c0 c1 cs, row.cells = c0 :: c1 :: cs ∧ c0.classes = ["cislo"])
    ∧ (∀ c0 c1 cs a, row.cells = c0 :: c1 :: cs → c0.anchor = some a →
        process_district_row row =
          some (pyStrip a.1, pyStrip c1.text, volbyBase ++ a.2)) := by
  constructor
  · rcases hc : row.cells with _ | ⟨c0, _ | ⟨c1, cs⟩⟩ <;>
      simp [isDistrictDataRow, hc]
  · intro c0 c1 cs a hc ha
    simp [process_district_row, hc, ha]

/-- Witness for C9's amended statement at a concrete two-cell data row. -/
theorem row_selection_amended_witness :
    process_district_row
        ⟨[⟨["cislo"], none, "", some (" 1 ", "xobec?x=1")⟩, ⟨[], none, " Praha ", none⟩]⟩ =
      some (pyStrip " 1 ", pyStrip " Praha ", volbyBase ++ "xobec?x=1") :=
  (row_selection_amended
      ⟨[⟨["cislo"], none, "", some (" 1 ", "xobec?x=1")⟩, ⟨[], none, " Praha ", none⟩]⟩).2
    ⟨["cislo"], none, "", some (" 1 ", "xobec?x=1")⟩ ⟨[], none, " Praha ", none⟩ []
    (" 1 ", "xobec?x=1") rfl rfl

/-- C1: for every successful run, the Global Party Order is the code-sorted,
first-occurrence-by-name deduplication of the accumulation of every
`(code, name)` pair emitted by the Party Vote Extractor across all districts
(the per-district pre-sorting the code interposes does not change it), and
its length equals the number of distinct party names seen across all
districts. -/
theorem global_party_order_spec (fetch : String → ResultsPage) (page : ResultsPage)
    (ds : List PyDict) (order : List String)
    (h : mainAggregate fetch page = .ok (ds, order)) :
    order = dedupNames (sortByKey Prod.fst (rawAccum fetch page.rows)) []
    ∧ order.length = ((rawAccum fetch page.rows).map Prod.snd).toFinset.card := by
  obtain ⟨ps, hml, _, horder⟩ := mainAggregate_ok fetch page ds order h
  have hsort : sortByKey Prod.fst ps =
      sortByKey Prod.fst (rawAccum fetch page.rows) := by
    apply sortByKey_ext
    intro k
    have hk := mainLoop_ok_keyFilter fetch page.rows [] [] ds ps hml k
    simpa using hk
  constructor
  · rw [horder]; unfold globalPartyOrder; rw [hsort]
  · rw [horder]; unfold globalPartyOrder; rw [hsort, dedupNames_length]
    congr 1
    apply List.toFinset_eq_of_perm
    exact (sortByKey_perm Prod.fst _).map Prod.snd

/-- A results page listing parties (2, "Party B", 100) then (1, "Party A",
200), in that document order. -/
def demoResultsPage : ResultsPage :=
  ⟨[⟨[⟨["cislo"], some "t1sa1 t1sb1", "2", none⟩,
      ⟨["overflow_name"], none, "Party B", none⟩,
      ⟨["cislo"], none, "100", none⟩]⟩,
    ⟨[⟨["cislo"], some "t2sa1 t2sb1", "1", none⟩,
      ⟨["overflow_name"], none, "Party A", none⟩,
      ⟨["cislo"], none, "200", none⟩]⟩]⟩

/-- A second-level district list with a single data row for "Praha". -/
def demoDistrictPage : ResultsPage :=
  ⟨[⟨[⟨["cislo"], none, "", some ("1", "d1")⟩, ⟨[], none, "Praha", none⟩]⟩]⟩

def demoFetch : String → ResultsPage := fun _ => demoResultsPage

/-- Witness for C1: the demo run orders "Party A" (code 1) before "Party B"
(code 2) and has one column per distinct name. -/
theorem global_party_order_spec_witness :
    ["Party A", "Party B"] =
        dedupNames (sortByKey Prod.fst (rawAccum demoFetch demoDistrictPage.rows)) []
    ∧ (["Party A", "Party B"] : List String).length =
        ((rawAccum demoFetch demoDistrictPage.rows).map Prod.snd).toFinset.card :=
  global_party_order_spec demoFetch demoDistrictPage
    [assembleRecord demoResultsPage "1" "Praha"] ["Party A", "Party B"] rfl

/-- The Global Party Order of a run's outcome, when the run succeeded. -/
def exportOrder (r : Except MainErr (List PyDict × List String)) :
    Option (List String) :=
  match r with
  | .ok (_, order) => some order
  | .error _ => none

/-- District rows linking to the two sub-pages `u1` and `u2`. -/
def cxRow1 : Row := ⟨[⟨["cislo"], none, "", some ("1", "u1")⟩, ⟨[], none, "D1", none⟩]⟩
def cxRow2 : Row := ⟨[⟨["cislo"], none, "", some ("2", "u2")⟩, ⟨[], none, "D2", none⟩]⟩

/-- A results page with a single party `(code, name)` with 10 votes. -/
def cxResults (codeTxt nm : String) : ResultsPage :=
  ⟨[⟨[⟨["cislo"], some "t1sa1 t1sb1", codeTxt, none⟩,
      ⟨["overflow_name"], none, nm, none⟩,
      ⟨["cislo"], none, "10", none⟩]⟩]⟩

/-- Fetch oracle for the counterexample: district 1 reports code 1 under name
"A", district 2 reports the same code 1 under name "B". -/
def cxFetch : String → ResultsPage :=
  fun u => if u = volbyBase ++ "u1" then cxResults "1" "A" else cxResults "1" "B"

def cxPageA : ResultsPage := ⟨[cxRow1, cxRow2]⟩
def cxPageB : ResultsPage := ⟨[cxRow2, cxRow1]⟩

/-- Counterexample for C2 as stated: two runs over the same multiset of
`(code, name)` observations — the same two districts visited in the two
orders — produce different Global Party Orders, because both districts
observe code 1 but under different names, the code-sort is stable, and the
first-occurrence tie-break then keeps whichever name came first. -/
theorem order_perm_invariance_counterexample :
    List.Perm (rawAccum cxFetch cxPageA.rows) (rawAccum cxFetch cxPageB.rows)
    ∧ exportOrder (mainAggregate cxFetch cxPageA) = some ["A", "B"]
    ∧ exportOrder (mainAggregate cxFetch cxPageB) = some ["B", "A"] :=
  ⟨by decide, rfl, rfl⟩

/-- C2 (amended): two successful runs whose accumulated `(code, name)`
observations are permutations of each other (the same multiset, districts
visited in any order) produce the same Global Party Order, provided no code
is observed under two different names. -/
theorem order_perm_invariance (fetch fetch2 : String → ResultsPage)
    (page page2 : ResultsPage) (ds ds2 : List PyDict) (order order2 : List String)
    (h : mainAggregate fetch page = .ok (ds, order))
    (h2 : mainAggregate fetch2 page2 = .ok (ds2, order2))
    (hperm : List.Perm (rawAccum fetch page.rows) (rawAccum fetch2 page2.rows))
    (hfun : ∀ p ∈ rawAccum fetch page.rows, ∀ q ∈ rawAccum fetch page.rows,
      Prod.fst p = Prod.fst q → Prod.snd p = Prod.snd q) :
    order = order2 := by
  obtain ⟨ps, hml, _, horder⟩ := mainAggregate_ok fetch page ds order h
  obtain ⟨ps2, hml2, _, horder2⟩ := mainAggregate_ok fetch2 page2 ds2 order2 h2
  have hsort : sortByKey Prod.fst ps =
      sortByKey Prod.fst (rawAccum fetch page.rows) :=
    sortByKey_ext _ _ _ (fun k => by
      simpa using mainLoop_ok_keyFilter fetch page.rows [] [] ds ps hml k)
  have hsort2 : sortByKey Prod.fst ps2 =
      sortByKey Prod.fst (rawAccum fetch2 page2.rows) :=
    sortByKey_ext _ _ _ (fun k => by
      simpa using mainLoop_ok_keyFilter fetch2 page2.rows [] [] ds2 ps2 hml2 k)
  have hsame : sortByKey Prod.fst (rawAccum fetch page.rows) =
      sortByKey Prod.fst (rawAccum fetch2 page2.rows) :=
    sortByKey_ext _ _ _ (fun k =>
      keyFilter_eq_of_perm Prod.fst _ _ hperm
        (fun p hp q hq hk => Prod.ext hk (hfun p hp q hq hk)) k)
  rw [horder, horder2]
  unfold globalPartyOrder
  rw [hsort, hsort2, hsame]

/-- Fetch oracle for the amended C2's witness: the two districts observe
distinct codes 1 and 2. -/
def cxFetchOk : String → ResultsPage :=
  fun u => if u = volbyBase ++ "u1" then cxResults "1" "A" else cxResults "2" "B"

/-- Witness for C2's amended statement: with each code under a single name,
visiting the districts in either order yields the same Global Party Order. -/
theorem order_perm_invariance_witness : (["A", "B"] : List String) = ["A", "B"] :=
  order_perm_invariance cxFetchOk cxFetchOk cxPageA cxPageB
    [assembleRecord (cxResults "1" "A") "1" "D1",
     assembleRecord (cxResults "2" "B") "2" "D2"]
    [assembleRecord (cxResults "2" "B") "2" "D2",
     assembleRecord (cxResults "1" "A") "1" "D1"]
    ["A", "B"] ["A", "B"] rfl rfl (by decide) (by decide)

/-- A results page with no statistics cells and a single party literally
named "registered" whose vote count is the string "0". -/
def collideResults : ResultsPage :=
  ⟨[⟨[⟨["cislo"], some "t1sa1 t1sb1", "1", none⟩,
      ⟨["overflow_name"], none, "registered", none⟩,
      ⟨["cislo"], none, "0", none⟩]⟩]⟩

def collideFetch : String → ResultsPage := fun _ => collideResults

/-- A second-level district list with one data row for district "D". -/
def collidePage : ResultsPage :=
  ⟨[⟨[⟨["cislo"], none, "", some ("9", "u")⟩, ⟨[], none, "D", none⟩]⟩]⟩

/-- Counterexample for C3 as stated: on a page whose registered-voters cell is
absent but which lists a party literally named "registered" with vote count
"0", the run succeeds and the exported `registered` cell of the fixed columns
is "0" — the party's votes overwrite the "N/A" sentinel (main.py lines
194-195) — where the claim demands "N/A" and "never 0". -/
theorem csv_default_fill_counterexample :
    findTdByHeaders collideResults "sa2" = none
    ∧ mainRun collideFetch collidePage =
        .ok (["code", "location", "registered", "envelopes", "valid", "registered"],
          [["9", "D", "0", "N/A", "N/A", "0"]]) :=
  ⟨rfl, rfl⟩

/-- C3 (amended): in the exported table, a party column of the Global Party
Order with no entry in a district's record exports as the literal "0", and
each of the five fixed columns always has a value in the record (so the "0"
default never applies to them); a statistic whose cell was absent exports as
the sentinel "N/A" provided no party on that district's page is literally
named after the statistic — such a party overwrites the sentinel with its
vote count (possibly "0"). -/
theorem csv_default_fill (fetch : String → ResultsPage) (page : ResultsPage)
    (ds : List PyDict) (order : List String)
    (h : mainAggregate fetch page = .ok (ds, order)) :
    (∀ entry ∈ ds,
      (∀ col, dget entry col = none → csvCell entry col = "0")
      ∧ (∀ col ∈ csvColumns [], (dget entry col).isSome = true))
    ∧ (∀ page2 code location,
        findTdByHeaders page2 "sa2" = none →
        lastWrite (partyWrites page2) "registered" = none →
        csvCell (assembleRecord page2 code location) "registered" = "N/A")
    ∧ (∀ page2 code location,
        findTdByHeaders page2 "sa3" = none →
        lastWrite (partyWrites page2) "envelopes" = none →
        csvCell (assembleRecord page2 code location) "envelopes" = "N/A")
    ∧ (∀ page2 code location,
        findTdByHeaders page2 "sa6" = none →
        lastWrite (partyWrites page2) "valid" = none →
        csvCell (assembleRecord page2 code location) "valid" = "N/A") := by
  refine ⟨?_, ?_, ?_, ?_⟩
  · intro entry hentry
    obtain ⟨ps, hml, _, _⟩ := mainAggregate_ok fetch page ds order h
    rcases mainLoop_ok_mem fetch page.rows [] [] ds ps hml entry hentry with
      hin | ⟨p2, c, loc, rfl⟩
    · simp at hin
    constructor
    · intro col hcol
      simp [csvCell, hcol]
    · intro col hcol
      obtain ⟨h1, h2, h3, h4, h5⟩ := record_key_collision p2 c loc
      have hcol' : col = "code" ∨ col = "location" ∨ col = "registered" ∨
          col = "envelopes" ∨ col = "valid" := by
        simpa [csvColumns] using hcol
      rcases hcol' with rfl | rfl | rfl | rfl | rfl
      · rw [h1]; rfl
      · rw [h2]; rfl
      · rw [h3]; rfl
      · rw [h4]; rfl
      · rw [h5]; rfl
  · intro page2 code location hsa hlw
    obtain ⟨_, _, h3, _, _⟩ := record_key_collision page2 code location
    rw [csvCell, h3, hlw]
    simp [extract_district_stats, hsa]
  · intro page2 code location hsa hlw
    obtain ⟨_, _, _, h4, _⟩ := record_key_collision page2 code location
    rw [csvCell, h4, hlw]
    simp [extract_district_stats, hsa]
  · intro page2 code location hsa hlw
    obtain ⟨_, _, _, _, h5⟩ := record_key_collision page2 code location
    rw [csvCell, h5, hlw]
    simp [extract_district_stats, hsa]

/-- Witness for C3's amended statement: in the demo run the record holds all
five fixed keys, and with absent statistics cells (and no colliding party
name) the exported registered and valid values are "N/A". -/
theorem csv_default_fill_witness :
    (dget (assembleRecord demoResultsPage "1" "Praha") "code").isSome = true
    ∧ csvCell (assembleRecord emptyStatPage "9" "X") "registered" = "N/A"
    ∧ csvCell (assembleRecord emptyStatPage "9" "X") "valid" = "N/A" :=
  ⟨((csv_default_fill demoFetch demoDistrictPage
        [assembleRecord demoResultsPage "1" "Praha"] ["Party A", "Party B"] rfl).1
      (assembleRecord demoResultsPage "1" "Praha") (by simp)).2 "code" (by decide),
   (csv_default_fill demoFetch demoDistrictPage
        [assembleRecord demoResultsPage "1" "Praha"] ["Party A", "Party B"] rfl).2.1
      emptyStatPage "9" "X" rfl rfl,
   (csv_default_fill demoFetch demoDistrictPage
        [assembleRecord demoResultsPage "1" "Praha"] ["Party A", "Party B"] rfl).2.2.2
      emptyStatPage "9" "X" rfl rfl⟩

end Projekt3
